import Mathlib

/-!
Verification of `scripts/build_ai_index.mjs` (repository index / inline-pack
builder).  The script is shallowly embedded: byte buffers (`Buffer`) are
`List Nat` of byte values; JavaScript strings that carry file content are
represented by their byte sequences (for text content, the UTF-8 bytes; for
base64 content, the ASCII codes of the base64 characters), so that
`content.length` used for shard byte accounting is the list length.
Runtime-library primitives that the script calls but does not define
(`crypto` SHA-256, `JSON.parse`, the `git show` / `fs.readFileSync` read, and
the minified-serialization length used for `approx_bytes`) are threaded as an
explicit environment of functions; every claim is proved for an arbitrary
environment.
-/

namespace BuildAiIndex

/-- Inline policy constants (`INLINE_TEXT_BYTES` etc. in the script). -/
def INLINE_TEXT_BYTES : Nat := 600 * 1024

def INLINE_BIN_BYTES : Nat := 200 * 1024

def PREVIEW_TEXT_BYTES : Nat := 64 * 1024

def SHARD_TARGET_BYTES : Nat := 4 * 1024 * 1024

def SHARD_MAX_ITEMS : Nat := 500

/-- `TEXT_EXT` from the script: extensions treated as text. -/
def TEXT_EXT : List String :=
  [("md"), ("mdx"), ("json"), ("js"), ("mjs"), ("css"), ("html"), ("yml"),
   ("yaml"), ("txt"), ("svg")]

/-- `ALWAYS_TEXT_FULL_PATHS` from the script. -/
def ALWAYS_TEXT_FULL_PATHS : List String :=
  [("dog-gifts.json"), ("dog-gifts.schema.json")]

/-- ASCII-faithful model of JavaScript `toLowerCase` (all paths and
extensions this script compares are ASCII): lowercase each character. -/
def lowerStr (s : String) : String :=
  String.mk (s.data.map Char.toLower)

/-- `s.startsWith(pre)`. -/
def strStarts (s pre : String) : Bool :=
  pre.data.isPrefixOf s.data

/-- `s.endsWith(suf)` (also models the anchored regex suffix tests). -/
def strEnds (s suf : String) : Bool :=
  suf.data.isSuffixOf s.data

/-- `split(".")` on the character list (never returns an empty list). -/
def splitDots : List Char → List (List Char)
  | [] => [[]]
  | c :: cs =>
    if c = '.' then [] :: splitDots cs
    else
      match splitDots cs with
      | [] => [[c]]
      | h :: t => (c :: h) :: t

/-- `p.split(".").pop()` (the split result is never empty, so `pop` is its
last element). -/
def lastSegment (p : String) : String :=
  String.mk ((splitDots p.data).getLastD [])

/-- `mediaTypeFor(p)`: lowercase the path, take the part after the last dot,
look it up in a closed extension table, defaulting to octet-stream. -/
def mediaTypeFor (p : String) : String :=
  match lastSegment (lowerStr p) with
  | "json" => "application/json"
  | "schema" => "application/json"
  | "js" => "application/javascript"
  | "mjs" => "application/javascript"
  | "css" => "text/css"
  | "html" => "text/html"
  | "md" => "text/markdown"
  | "mdx" => "text/markdown"
  | "txt" => "text/plain"
  | "svg" => "image/svg+xml"
  | "png" => "image/png"
  | "jpg" => "image/jpeg"
  | "jpeg" => "image/jpeg"
  | "webp" => "image/webp"
  | "ico" => "image/x-icon"
  | "pdf" => "application/pdf"
  | "xml" => "application/xml"
  | "yml" => "text/yaml"
  | "yaml" => "text/yaml"
  | _ => "application/octet-stream"

/-- `(p.split(".").pop() || "").toLowerCase()`: the extension used by the
inline policy (`writePack` and `isTextPath`). -/
def extOf (p : String) : String :=
  lowerStr (lastSegment p)

/-- `alwaysFullText(p)`: member of `ALWAYS_TEXT_FULL_PATHS`, or under a
directory matching the one case-insensitive pattern in
`ALWAYS_TEXT_FULL_DIRS` (`/^docs\//i`). -/
def alwaysFullText (p : String) : Bool :=
  ALWAYS_TEXT_FULL_PATHS.contains p || strStarts (lowerStr p) ("docs/")

/-- `isTextPath(p)` from the sharded-pack section: recognized text extension
or a `text/*` media type. -/
def isTextPath (p : String) : Bool :=
  TEXT_EXT.contains (extOf p) || strStarts (mediaTypeFor p) ("text/")

/-- Values produced by `JSON.parse` (number representation is irrelevant to
the claims; object fields keep insertion order, as `Object.keys` does). -/
inductive Json where
  | null
  | bool (b : Bool)
  | num (n : Int)
  | str (s : String)
  | arr (elems : List Json)
  | obj (fields : List (String × Json))

/-- The JavaScript computation
`Array.isArray(d) ? "array" : (d && typeof d === "object" ? "object" : typeof d)`
(note `null` is falsy and `typeof null` is `"object"`). -/
def jsTypeTag : Json → String
  | .null => "object"
  | .bool _ => "boolean"
  | .num _ => "number"
  | .str _ => "string"
  | .arr _ => "array"
  | .obj _ => "object"

/-- The shape-hint object built by `jsonShapeHint`. -/
structure JsonHint where
  type : String
  length : Option Nat := none
  sample : Option (List Json) := none
  keys : Option (List String) := none

/-- `jsonShapeHint(buf)`: parse the buffer; on parse failure return nothing
(`undefined`); otherwise record the top-level type, and for arrays the length
plus `slice(0, Math.min(3, length))`, for objects `Object.keys(..).slice(0,12)`. -/
def jsonShapeHint (jp : List Nat → Option Json) (buf : List Nat) : Option JsonHint :=
  match jp buf with
  | none => none
  | some d =>
    match d with
    | .arr l =>
      some { type := jsTypeTag (.arr l), length := some l.length,
             sample := some (l.take (min 3 l.length)) }
    | .obj kvs =>
      some { type := jsTypeTag (.obj kvs),
             keys := some ((kvs.map Prod.fst).take 12) }
    | d => some { type := jsTypeTag d }

/-- Base64 alphabet: sextet value (0..63) to ASCII code. -/
def b64Char (n : Nat) : Nat :=
  if n < 26 then 65 + n
  else if n < 52 then 71 + n
  else if n < 62 then n - 4
  else if n = 62 then 43
  else 47

/-- Inverse of the base64 alphabet (0 on non-alphabet codes). -/
def b64Val (c : Nat) : Nat :=
  if 65 ≤ c ∧ c ≤ 90 then c - 65
  else if 97 ≤ c ∧ c ≤ 122 then c - 71
  else if 48 ≤ c ∧ c ≤ 57 then c + 4
  else if c = 43 then 62
  else if c = 47 then 63
  else 0

/-- `buf.toString("base64")`: standard base64 with `=` (code 61) padding. -/
def base64Encode : List Nat → List Nat
  | [] => []
  | [a] => [b64Char (a / 4), b64Char (a % 4 * 16), 61, 61]
  | [a, b] => [b64Char (a / 4), b64Char (a % 4 * 16 + b / 16), b64Char (b % 16 * 4), 61]
  | a :: b :: c :: rest =>
    b64Char (a / 4) :: b64Char (a % 4 * 16 + b / 16) ::
      b64Char (b % 16 * 4 + c / 64) :: b64Char (c % 64) :: base64Encode rest

/-- Standard base64 decoding of a padded stream (inverse of `base64Encode`). -/
def base64Decode : List Nat → List Nat
  | c1 :: c2 :: c3 :: c4 :: rest =>
    if c3 = 61 then [b64Val c1 * 4 + b64Val c2 / 16]
    else if c4 = 61 then
      [b64Val c1 * 4 + b64Val c2 / 16, b64Val c2 % 16 * 16 + b64Val c3 / 4]
    else
      [b64Val c1 * 4 + b64Val c2 / 16, b64Val c2 % 16 * 16 + b64Val c3 / 4,
       b64Val c3 % 4 * 64 + b64Val c4] ++ base64Decode rest
  | _ => []

/-- One record of the repository file listing (`filesFromGitTree` / `walk`
output).  The two URL-template fields (`raw_url`, `html_url`) are plain
string interpolations never inspected by any claim and are omitted. -/
structure FileRec where
  path : String
  size : Nat
  git_blob_sha : String
  media_type : String
deriving DecidableEq

/-- One emitted pack/shard item.  Optional fields are the ones the script
attaches only when `inline_state !== "none"`; `json_hint` is `none` exactly
when the serialized item carries no `json_hint` key (the `undefined` value
JavaScript drops at `JSON.stringify` time behaves the same). -/
structure InlineItem where
  path : String
  size : Nat
  sha : String
  media_type : String
  inline_state : String
  max_inline_text_bytes : Nat
  max_inline_bin_bytes : Nat
  preview_text_bytes : Nat
  encoding : Option String
  content : Option (List Nat)
  inline_bytes : Option Nat
  content_sha256 : Option String
  json_hint : Option JsonHint

/-- Runtime-library primitives the script calls: SHA-256 hex digest,
`JSON.parse` (`none` = throw), `gitShow`/`readFileSync` (`none` = throw), and
the minified serialized length of a shard's pack (for `approx_bytes`). -/
structure Env where
  hash : List Nat → String
  jparse : List Nat → Option Json
  readFile : String → Option (List Nat)
  serLen : List InlineItem → Nat

/-- The metadata-only item (fields set before the `try` block; all inline
fields absent). -/
def baseItem (f : FileRec) : InlineItem :=
  { path := f.path, size := f.size, sha := f.git_blob_sha,
    media_type := f.media_type, inline_state := "none",
    max_inline_text_bytes := INLINE_TEXT_BYTES,
    max_inline_bin_bytes := INLINE_BIN_BYTES,
    preview_text_bytes := PREVIEW_TEXT_BYTES,
    encoding := none, content := none, inline_bytes := none,
    content_sha256 := none, json_hint := none }

/-- The per-file item built inside `writePack`'s loop: read the file (a read
failure leaves the metadata-only item); text extensions get full content when
on the always-full list or small enough, otherwise a `PREVIEW_TEXT_BYTES`
prefix with the hash still taken over the full buffer (plus a shape hint for
`.json`); other extensions get full base64 when small enough. -/
def packItem (E : Env) (f : FileRec) : InlineItem :=
  match E.readFile f.path with
  | none => baseItem f
  | some buf =>
    if TEXT_EXT.contains (extOf f.path) then
      if (TEXT_EXT.contains (extOf f.path) && alwaysFullText f.path)
          || decide (f.size ≤ INLINE_TEXT_BYTES) then
        { baseItem f with
          inline_state := "full", encoding := some ("utf8"),
          content := some buf, inline_bytes := some buf.length,
          content_sha256 := some (E.hash buf) }
      else if decide (0 < PREVIEW_TEXT_BYTES) then
        { baseItem f with
          inline_state := "preview", encoding := some ("utf8"),
          content := some (buf.take PREVIEW_TEXT_BYTES),
          inline_bytes := some (buf.take PREVIEW_TEXT_BYTES).length,
          content_sha256 := some (E.hash buf),
          json_hint := if extOf f.path = "json" then jsonShapeHint E.jparse buf else none }
      else baseItem f
    else if decide (f.size ≤ INLINE_BIN_BYTES) then
      { baseItem f with
        inline_state := "full", encoding := some ("base64"),
        content := some (base64Encode buf),
        inline_bytes := some (base64Encode buf).length,
        content_sha256 := some (E.hash buf) }
    else baseItem f

/-- The per-file item built inside `writeEverythingSharded`'s loop; identical
policy except the text test is `isTextPath` and the shape-hint trigger is the
regex test `/\.(json)$/i` on the path. -/
def everythingItem (E : Env) (f : FileRec) : InlineItem :=
  match E.readFile f.path with
  | none => baseItem f
  | some buf =>
    if isTextPath f.path then
      if alwaysFullText f.path || decide (f.size ≤ INLINE_TEXT_BYTES) then
        { baseItem f with
          inline_state := "full", encoding := some ("utf8"),
          content := some buf, inline_bytes := some buf.length,
          content_sha256 := some (E.hash buf) }
      else if decide (0 < PREVIEW_TEXT_BYTES) then
        { baseItem f with
          inline_state := "preview", encoding := some ("utf8"),
          content := some (buf.take PREVIEW_TEXT_BYTES),
          inline_bytes := some (buf.take PREVIEW_TEXT_BYTES).length,
          content_sha256 := some (E.hash buf),
          json_hint :=
            if strEnds (lowerStr f.path) (".json") then jsonShapeHint E.jparse buf
            else none }
      else baseItem f
    else if decide (f.size ≤ INLINE_BIN_BYTES) then
      { baseItem f with
        inline_state := "full", encoding := some ("base64"),
        content := some (base64Encode buf),
        inline_bytes := some (base64Encode buf).length,
        content_sha256 := some (E.hash buf) }
    else baseItem f

/-- The `bytes += content.length` contribution of an item to the running
shard byte total (zero when nothing was inlined). -/
def contentLen (i : InlineItem) : Nat :=
  match i.content with
  | some c => c.length
  | none => 0

/-- Sum of the embedded-content lengths of a list of items: the value the
script's `bytes` counter holds after pushing exactly those items. -/
def sumLen (l : List InlineItem) : Nat :=
  (l.map contentLen).sum

/-- `String(idx).padStart(4, "0")`. -/
def pad4 (s : String) : String :=
  if 4 ≤ s.length then s else String.mk (List.replicate (4 - s.length) ('0')) ++ s

/-- The shard artifact base name for shard number `i`. -/
def shardName (i : Nat) : String :=
  "ai-pack-everything-" ++ pad4 (toString i)

/-- One written shard: its name, its item list (the pack's `items`, whose
recorded `count` is `items.length`), and `min.length` (`approx_bytes`). -/
structure ShardRec where
  name : String
  items : List InlineItem
  approx_bytes : Nat

/-- One manifest entry (`{name, count, approx_bytes}` pushed by `flush`). -/
structure ManifestEntry where
  name : String
  count : Nat
  approx_bytes : Nat

/-- The mutable state of `writeEverythingSharded`'s loop: the in-progress
`items` and `bytes`, the next shard number, and the shards written so far. -/
structure ShardState where
  items : List InlineItem
  bytes : Nat
  shardIdx : Nat
  shards : List ShardRec

/-- `flush()`: a no-op on an empty in-progress shard (`if (!items.length)
return`); otherwise write the shard, record it, bump the index, and reset
`items` and `bytes`. -/
def flushShard (E : Env) (st : ShardState) : ShardState :=
  if st.items.length = 0 then st
  else
    { items := [], bytes := 0, shardIdx := st.shardIdx + 1,
      shards := st.shards ++
        [{ name := shardName st.shardIdx, items := st.items,
           approx_bytes := E.serLen st.items }] }

/-- One iteration of the `for (const f of subset)` loop: build the item, add
its content length to `bytes`, push it, and flush when the byte total has
reached `SHARD_TARGET_BYTES` or the item count has reached `SHARD_MAX_ITEMS`. -/
def shardStep (E : Env) (st : ShardState) (f : FileRec) : ShardState :=
  let item := everythingItem E f
  let bytes := st.bytes + contentLen item
  let items := st.items ++ [item]
  if SHARD_TARGET_BYTES ≤ bytes ∨ SHARD_MAX_ITEMS ≤ items.length then
    flushShard E { items := items, bytes := bytes, shardIdx := st.shardIdx, shards := st.shards }
  else
    { items := items, bytes := bytes, shardIdx := st.shardIdx, shards := st.shards }

/-- The whole loop body of `writeEverythingSharded`. -/
def shardLoop (E : Env) : List FileRec → ShardState → ShardState
  | [], st => st
  | f :: fs, st => shardLoop E fs (shardStep E st f)

/-- The subset fed to the sharded pack: every file except generated
`docs/ai-` outputs and `.git/` internals. -/
def everythingSubset (files : List FileRec) : List FileRec :=
  files.filter (fun f =>
    !(strStarts f.path ("docs/ai-")) && !(strStarts f.path (".git/")))

/-- All shards written by one run of `writeEverythingSharded` (the loop over
the filtered subset starting from shard 1, then the trailing `flush()`). -/
def everythingShards (E : Env) (files : List FileRec) : List ShardRec :=
  (flushShard E (shardLoop E (everythingSubset files)
    { items := [], bytes := 0, shardIdx := 1, shards := [] })).shards

/-- The manifest's `shards` list (`name`, `count: items.length`,
`approx_bytes` for each written shard). -/
def everythingManifest (E : Env) (files : List FileRec) : List ManifestEntry :=
  (everythingShards E files).map (fun s =>
    { name := s.name, count := s.items.length, approx_bytes := s.approx_bytes })

/-- Concatenation of the shards' item lists, in shard order then in-shard
order. -/
def shardItems (shards : List ShardRec) : List InlineItem :=
  shards.foldr (fun s acc => s.items ++ acc) []

/-- A directory tree as seen by the fallback `walk` (directory entries in
`readdirSync` order). -/
inductive FSEntry where
  | file (name : String) (size : Nat)
  | dir (name : String) (entries : List FSEntry)

/-- `path.join(dir, name)` for the paths `walk` builds: joining onto `"."`
normalizes the leading `./` away. -/
def joinPath (dir name : String) : String :=
  if dir = "." then name else dir ++ "/" ++ name

/-- `p.replace(/^[.][\/\\]*/, "")`: strip one leading dot together with any
run of slashes or backslashes after it. -/
def stripLeadingDot (p : String) : String :=
  match p.data with
  | '.' :: rest => String.mk (rest.dropWhile (fun c => c = '/' || c = '\\'))
  | _ => p

mutual

/-- One entry of `walk`: skip anything whose joined path starts with `.git`;
recurse into directories; emit a record (empty `git_blob_sha`, filesystem
size, leading-dot-stripped path) for files. -/
def walkEntry (dir : String) : FSEntry → List FileRec
  | .file name size =>
    let p := joinPath dir name
    if strStarts p (".git") then []
    else
      [{ path := stripLeadingDot p, size := size, git_blob_sha := "",
         media_type := mediaTypeFor p }]
  | .dir name entries =>
    let p := joinPath dir name
    if strStarts p (".git") then [] else walkList p entries

/-- `walk` over a directory's entry list, concatenating the results. -/
def walkList (dir : String) : List FSEntry → List FileRec
  | [] => []
  | e :: es => walkEntry dir e ++ walkList dir es

end

/-- The fallback at top level: if `filesFromGitTree` returned no files, use
`walk(".")` over the working tree. -/
def fallbackFiles (gitFiles : List FileRec) (cwd : List FSEntry) : List FileRec :=
  if gitFiles.length = 0 then walkList (".") cwd else gitFiles

/-- A written pack artifact: recorded `count` and `items`. -/
structure Pack where
  count : Nat
  items : List InlineItem

/-- `writePack`: filter the file list, build the items, record
`count: items.length`. -/
def writePackModel (E : Env) (files : List FileRec) (pred : FileRec → Bool) : Pack :=
  let items := (files.filter pred).map (packItem E)
  { count := items.length, items := items }

/-- Predicate of `ai-pack-docs`: `docs/` prefix and `/\.mdx?$/i`. -/
def predDocs (f : FileRec) : Bool :=
  strStarts f.path ("docs/") &&
    (strEnds (lowerStr f.path) (".md") || strEnds (lowerStr f.path) (".mdx"))

/-- Predicate of `ai-pack-data-config`: lowercase `data/` prefix and
`/\.(json|ya?ml)$/i`. -/
def predDataConfig (f : FileRec) : Bool :=
  strStarts (lowerStr f.path) ("data/") &&
    (strEnds (lowerStr f.path) (".json") || strEnds (lowerStr f.path) (".yaml") ||
      strEnds (lowerStr f.path) (".yml"))

/-- `CORE_SET` from the script. -/
def CORE_SET : List String :=
  [("index.html"), ("app.js"), ("app-pdf.js"), ("app-curves-inline.js"),
   ("app-celebrate.js"), ("service-worker.js"), ("js/runtime-fetch.js"),
   ("dog-gifts.json"), ("dog-gifts.schema.json"), ("style.css"),
   ("manifest.json")]

/-- Predicate of `ai-pack-core`: membership in `CORE_SET`. -/
def predCore (f : FileRec) : Bool :=
  CORE_SET.contains f.path

/-- Predicate of `ai-pack-ci`: `.github/workflows/` prefix and `/\.ya?ml$/i`. -/
def predCi (f : FileRec) : Bool :=
  strStarts f.path (".github/workflows/") &&
    (strEnds (lowerStr f.path) (".yml") || strEnds (lowerStr f.path) (".yaml"))

/-- The four named packs as they sit on disk after the `writePack` calls,
keyed by artifact base name.  Writing then re-reading the minified JSON is
modelled as storing then retrieving the pack value (`JSON.stringify` /
`JSON.parse` round-trip). -/
def packDisk (E : Env) (files : List FileRec) : List (String × Pack) :=
  [(("ai-pack-docs"), writePackModel E files predDocs),
   (("ai-pack-data-config"), writePackModel E files predDataConfig),
   (("ai-pack-core"), writePackModel E files predCore),
   (("ai-pack-ci"), writePackModel E files predCi)]

/-- `JSON.parse(readFileSync(...)).items || []` for one named pack. -/
def readPackItems (disk : List (String × Pack)) (name : String) : List InlineItem :=
  match disk.lookup name with
  | some p => p.items
  | none => []

/-- One section of the combined `ai-pack-all` document:
`{count: p.items.length, items: p.items}` for the re-read pack. -/
def combinedSection (E : Env) (files : List FileRec) (name : String) : Pack :=
  let its := readPackItems (packDisk E files) name
  { count := its.length, items := its }

/-- A shard whose flush point was legitimate: it is non-empty and no proper
prefix of its items had already reached either threshold (so the flush, if
any threshold was hit, happened at the first item that hit one). -/
def GoodShard (s : ShardRec) : Prop :=
  s.items ≠ [] ∧
  ∀ k, k < s.items.length →
    sumLen (s.items.take k) < SHARD_TARGET_BYTES ∧ k < SHARD_MAX_ITEMS

/-- A shard that reached at least one of the two thresholds. -/
def ClosedShard (s : ShardRec) : Prop :=
  SHARD_TARGET_BYTES ≤ sumLen s.items ∨ SHARD_MAX_ITEMS ≤ s.items.length

/-- Loop invariant of `writeEverythingSharded`: the byte counter equals the
content length of the pending items, the pending shard is strictly below
both thresholds, and every shard already written is a non-empty,
first-trigger flush that reached a threshold. -/
def ShardInv (st : ShardState) : Prop :=
  st.bytes = sumLen st.items ∧
  sumLen st.items < SHARD_TARGET_BYTES ∧
  st.items.length < SHARD_MAX_ITEMS ∧
  ∀ s ∈ st.shards, GoodShard s ∧ ClosedShard s

/-- A trivial environment for evaluating the model at concrete inputs. -/
def E0 : Env :=
  { hash := fun _ => "", jparse := fun _ => none,
    readFile := fun _ => some [], serLen := fun _ => 0 }

/-- An environment whose parser returns a four-element array. -/
def E1 : Env :=
  { E0 with jparse := fun _ => some (Json.arr [Json.null, Json.null, Json.null, Json.null]) }

/-- A small recognized-text file (full inline). -/
def fTxt : FileRec :=
  { path := "a.txt", size := 0, git_blob_sha := "", media_type := "text/plain" }

/-- A markdown file whose recorded size is over the full-text limit
(preview inline). -/
def fPrev : FileRec :=
  { path := "big.md", size := 700000, git_blob_sha := "", media_type := "text/markdown" }

/-- A JSON file whose recorded size is over the full-text limit
(preview inline with shape hint). -/
def fJson : FileRec :=
  { path := "big.json", size := 700000, git_blob_sha := "", media_type := "application/json" }

/-- A small binary file (full base64 inline). -/
def fBin : FileRec :=
  { path := "img.png", size := 100, git_blob_sha := "", media_type := "image/png" }

/-- A binary file over the binary limit (nothing inlined). -/
def fBigBin : FileRec :=
  { path := "big.pdf", size := 300000, git_blob_sha := "", media_type := "application/pdf" }

/-- A directory tree containing a `.github` workflow next to a plain file:
input for exercising the fallback walk. -/
def demoTree : List FSEntry :=
  [FSEntry.dir (".github") [FSEntry.file ("w.yml") 3], FSEntry.file ("a.txt") 5]

/-- The record the fallback walk produces for `a.txt` in `demoTree`. -/
def recATxt : FileRec :=
  { path := "a.txt", size := 5, git_blob_sha := "", media_type := "text/plain" }

/-- The item the sharded pack builds for `fTxt` under `E0`. -/
def itemATxt : InlineItem :=
  { path := "a.txt", size := 0, sha := "", media_type := "text/plain",
    inline_state := "full", max_inline_text_bytes := INLINE_TEXT_BYTES,
    max_inline_bin_bytes := INLINE_BIN_BYTES,
    preview_text_bytes := PREVIEW_TEXT_BYTES, encoding := some ("utf8"),
    content := some [], inline_bytes := some 0, content_sha256 := some (""),
    json_hint := none }

/-- The single shard a run over `[fTxt]` produces under `E0`. -/
def shardATxt : ShardRec :=
  { name := "ai-pack-everything-0001", items := [itemATxt], approx_bytes := 0 }

theorem everythingItem_path (E : Env) (f : FileRec) : (everythingItem E f).path = f.path := by
  unfold everythingItem
  split
  · rfl
  · split
    · split
      · rfl
      · split
        · rfl
        · rfl
    · split
      · rfl
      · rfl

theorem packItem_path (E : Env) (f : FileRec) : (packItem E f).path = f.path := by
  unfold packItem
  split
  · rfl
  · split
    · split
      · rfl
      · split
        · rfl
        · rfl
    · split
      · rfl
      · rfl

theorem sumLen_nil : sumLen [] = 0 := rfl

theorem sumLen_append (a b : List InlineItem) : sumLen (a ++ b) = sumLen a + sumLen b := by
  simp [sumLen]

theorem sumLen_take_le (l : List InlineItem) (k : Nat) : sumLen (l.take k) ≤ sumLen l := by
  conv_rhs => rw [← List.take_append_drop k l]
  rw [sumLen_append]
  exact Nat.le_add_right _ _

theorem shardItems_nil : shardItems [] = [] := rfl

theorem shardItems_cons (s : ShardRec) (l : List ShardRec) :
    shardItems (s :: l) = s.items ++ shardItems l := rfl

theorem shardItems_append (a b : List ShardRec) :
    shardItems (a ++ b) = shardItems a ++ shardItems b := by
  induction a with
  | nil => rfl
  | cons s t ih => simp [shardItems_cons, ih]

theorem flushShard_items (E : Env) (st : ShardState) : (flushShard E st).items = [] := by
  unfold flushShard
  split
  · next h => exact List.length_eq_zero.mp h
  · rfl

theorem flushShard_shardItems (E : Env) (st : ShardState) :
    shardItems (flushShard E st).shards = shardItems st.shards ++ st.items := by
  unfold flushShard
  split
  · next h => simp [List.length_eq_zero.mp h]
  · simp [shardItems_append, shardItems_cons, shardItems_nil]

theorem shardStep_conserve (E : Env) (st : ShardState) (f : FileRec) :
    shardItems (shardStep E st f).shards ++ (shardStep E st f).items =
      shardItems st.shards ++ (st.items ++ [everythingItem E f]) := by
  unfold shardStep
  dsimp only
  split
  · rw [flushShard_shardItems, flushShard_items]
    simp
  · simp

theorem shardLoop_conserve (E : Env) (fs : List FileRec) : ∀ st : ShardState,
    shardItems (shardLoop E fs st).shards ++ (shardLoop E fs st).items =
      shardItems st.shards ++ st.items ++ fs.map (everythingItem E) := by
  induction fs with
  | nil => intro st; simp [shardLoop]
  | cons f fs ih =>
    intro st
    rw [shardLoop, ih, shardStep_conserve]
    simp

theorem shards_flat_eq (E : Env) (files : List FileRec) :
    shardItems (everythingShards E files) =
      (everythingSubset files).map (everythingItem E) := by
  unfold everythingShards
  rw [flushShard_shardItems]
  have h := shardLoop_conserve E (everythingSubset files)
    { items := [], bytes := 0, shardIdx := 1, shards := [] }
  simpa using h

/-- Claim C1: concatenating all shards' items, in shard order and then
in-shard order, reproduces exactly the filtered input file list (files
excluding generated `docs/ai-` outputs and `.git/` internals) in its
original order: every filtered file appears exactly once as an item,
nothing is dropped or reordered by shard flushing. -/
theorem everything_shards_concat_order (E : Env) (files : List FileRec) :
    shardItems (everythingShards E files) =
      (everythingSubset files).map (everythingItem E) ∧
    (shardItems (everythingShards E files)).map InlineItem.path =
      (everythingSubset files).map FileRec.path := by
  refine ⟨shards_flat_eq E files, ?_⟩
  rw [shards_flat_eq E files, List.map_map]
  congr 1
  funext a
  exact everythingItem_path E a

theorem shardStep_inv (E : Env) (st : ShardState) (f : FileRec) (h : ShardInv st) :
    ShardInv (shardStep E st f) := by
  obtain ⟨hb, hsum, hlen, hsh⟩ := h
  have hsum' : sumLen (st.items ++ [everythingItem E f]) =
      sumLen st.items + contentLen (everythingItem E f) := by
    simp [sumLen]
  unfold shardStep
  dsimp only
  split
  · next hcond =>
    unfold flushShard
    rw [if_neg (by simp)]
    refine ⟨by simp [sumLen_nil], ?_, ?_, ?_⟩
    · simp only [sumLen_nil]
      norm_num [SHARD_TARGET_BYTES]
    · simp only [List.length_nil]
      norm_num [SHARD_MAX_ITEMS]
    · intro s hs
      rcases List.mem_append.mp hs with hold | hnew
      · exact hsh s hold
      · have hseq := List.mem_singleton.mp hnew
        subst hseq
        refine ⟨⟨by simp, ?_⟩, ?_⟩
        · intro k hk
          simp only [List.length_append, List.length_singleton] at hk
          have hk' : k ≤ st.items.length := by omega
          have htk : (st.items ++ [everythingItem E f]).take k = st.items.take k := by
            rw [List.take_append_eq_append_take, Nat.sub_eq_zero_of_le hk']
            simp
          constructor
          · rw [htk]
            exact Nat.lt_of_le_of_lt (sumLen_take_le st.items k) hsum
          · omega
        · rcases hcond with hbig | hmany
          · left
            rw [hsum']
            rw [hb] at hbig
            exact hbig
          · right
            simpa using hmany
  · next hcond =>
    push_neg at hcond
    obtain ⟨hb', hl'⟩ := hcond
    exact ⟨by rw [hsum', hb], by rw [hsum', ← hb]; exact hb', hl', hsh⟩

theorem shardLoop_inv (E : Env) (fs : List FileRec) : ∀ st : ShardState,
    ShardInv st → ShardInv (shardLoop E fs st) := by
  induction fs with
  | nil => intro st h; exact h
  | cons f fs ih =>
    intro st h
    rw [shardLoop]
    exact ih _ (shardStep_inv E st f h)

theorem shardInv_init : ShardInv { items := [], bytes := 0, shardIdx := 1, shards := [] } := by
  refine ⟨rfl, ?_, ?_, by intro s hs; simp at hs⟩
  · norm_num [sumLen_nil, SHARD_TARGET_BYTES]
  · norm_num [SHARD_MAX_ITEMS]

theorem final_shards_good (E : Env) (st : ShardState) (h : ShardInv st) :
    ∀ s ∈ (flushShard E st).shards, GoodShard s := by
  obtain ⟨hb, hsum, hlen, hsh⟩ := h
  unfold flushShard
  split
  · exact fun s hs => (hsh s hs).1
  · next hne =>
    intro s hs
    rcases List.mem_append.mp hs with hold | hnew
    · exact (hsh s hold).1
    · have hseq := List.mem_singleton.mp hnew
      subst hseq
      refine ⟨fun hemp => hne (by simp only [List.length_eq_zero]; exact hemp), ?_⟩
      intro k hk
      exact ⟨Nat.lt_of_le_of_lt (sumLen_take_le st.items k) hsum,
        Nat.lt_trans hk hlen⟩

theorem final_shards_closed (E : Env) (st : ShardState) (h : ShardInv st) :
    ∀ s ∈ ((flushShard E st).shards).dropLast, ClosedShard s := by
  obtain ⟨hb, hsum, hlen, hsh⟩ := h
  unfold flushShard
  split
  · intro s hs
    exact (hsh s ((List.dropLast_sublist st.shards).subset hs)).2
  · intro s hs
    rw [List.dropLast_concat] at hs
    exact (hsh s hs).2

theorem shardItems_length (l : List ShardRec) :
    (shardItems l).length = (l.map (fun s => s.items.length)).sum := by
  induction l with
  | nil => rfl
  | cons s t ih => simp [shardItems_cons, ih]

/-- Claim C2: a shard closes exactly when the running embedded-content byte
total reaches `SHARD_TARGET_BYTES` (4 MiB) or the item count reaches
`SHARD_MAX_ITEMS` (500), whichever comes first: no shard's item count
exceeds the cap; every shard except possibly the last reached at least one
threshold; within any shard no proper prefix of its items had already
reached a threshold (the flush is at the first trigger); and the trailing
partial shard is still flushed, so the shard counts add up to the whole
filtered subset. -/
theorem shard_close_policy (E : Env) (files : List FileRec) :
    (∀ s ∈ everythingShards E files, s.items.length ≤ SHARD_MAX_ITEMS) ∧
    (∀ s ∈ (everythingShards E files).dropLast,
      SHARD_TARGET_BYTES ≤ sumLen s.items ∨ SHARD_MAX_ITEMS ≤ s.items.length) ∧
    (∀ s ∈ everythingShards E files, ∀ k, k < s.items.length →
      sumLen (s.items.take k) < SHARD_TARGET_BYTES ∧ k < SHARD_MAX_ITEMS) ∧
    ((everythingShards E files).map (fun s => s.items.length)).sum =
      (everythingSubset files).length := by
  have hinv : ShardInv (shardLoop E (everythingSubset files)
      { items := [], bytes := 0, shardIdx := 1, shards := [] }) :=
    shardLoop_inv E (everythingSubset files) _ shardInv_init
  have hgood : ∀ s ∈ everythingShards E files, GoodShard s :=
    final_shards_good E _ hinv
  refine ⟨?_, ?_, ?_, ?_⟩
  · intro s hs
    obtain ⟨hne, hpre⟩ := hgood s hs
    have h0 : 0 < s.items.length := List.length_pos.mpr hne
    have hk := (hpre (s.items.length - 1) (by omega)).2
    omega
  · exact final_shards_closed E _ hinv
  · intro s hs
    exact (hgood s hs).2
  · rw [← shardItems_length, shards_flat_eq E files, List.length_map]

/-- Claim C10: no shard artifact and no manifest entry is ever empty: the
`flush` guard skips an empty in-progress shard, so every written shard has
at least one item, and an empty filtered input yields no shards at all. -/
theorem shards_never_empty (E : Env) (files : List FileRec) :
    (∀ s ∈ everythingShards E files, 1 ≤ s.items.length) ∧
    (∀ m ∈ everythingManifest E files, 1 ≤ m.count) ∧
    everythingShards E [] = [] := by
  have hinv : ShardInv (shardLoop E (everythingSubset files)
      { items := [], bytes := 0, shardIdx := 1, shards := [] }) :=
    shardLoop_inv E (everythingSubset files) _ shardInv_init
  have hgood : ∀ s ∈ everythingShards E files, GoodShard s :=
    final_shards_good E _ hinv
  refine ⟨?_, ?_, rfl⟩
  · intro s hs
    have := List.length_pos.mpr (hgood s hs).1
    omega
  · intro m hm
    obtain ⟨s, hs, hms⟩ := List.mem_map.mp hm
    have := List.length_pos.mpr (hgood s hs).1
    rw [← hms]
    simpa using this

theorem b64Val_b64Char : ∀ n < 64, b64Val (b64Char n) = n := by decide

theorem b64Char_ne_pad : ∀ n < 64, b64Char n ≠ 61 := by decide

theorem base64Decode_pad2 (c1 c2 : Nat) :
    base64Decode [c1, c2, 61, 61] = [b64Val c1 * 4 + b64Val c2 / 16] := by
  simp [base64Decode]

theorem base64Decode_pad1 (c1 c2 c3 : Nat) (h : c3 ≠ 61) :
    base64Decode [c1, c2, c3, 61] =
      [b64Val c1 * 4 + b64Val c2 / 16, b64Val c2 % 16 * 16 + b64Val c3 / 4] := by
  simp [base64Decode, h]

theorem base64Decode_quad (c1 c2 c3 c4 : Nat) (h3 : c3 ≠ 61) (h4 : c4 ≠ 61)
    (rest : List Nat) :
    base64Decode (c1 :: c2 :: c3 :: c4 :: rest) =
      [b64Val c1 * 4 + b64Val c2 / 16, b64Val c2 % 16 * 16 + b64Val c3 / 4,
       b64Val c3 % 4 * 64 + b64Val c4] ++ base64Decode rest := by
  simp [base64Decode, h3, h4]

theorem base64_roundtrip (bs : List Nat) (h : ∀ x ∈ bs, x < 256) :
    base64Decode (base64Encode bs) = bs := by
  induction bs using base64Encode.induct with
  | case1 => rfl
  | case2 a =>
    have ha : a < 256 := h a (by simp)
    show base64Decode [b64Char (a / 4), b64Char (a % 4 * 16), 61, 61] = [a]
    rw [base64Decode_pad2, b64Val_b64Char _ (by omega), b64Val_b64Char _ (by omega)]
    simp only [List.cons.injEq, and_true]
    omega
  | case3 a b =>
    have ha : a < 256 := h a (by simp)
    have hb : b < 256 := h b (by simp)
    show base64Decode [b64Char (a / 4), b64Char (a % 4 * 16 + b / 16),
      b64Char (b % 16 * 4), 61] = [a, b]
    rw [base64Decode_pad1 _ _ _ (b64Char_ne_pad _ (by omega)),
      b64Val_b64Char _ (by omega), b64Val_b64Char _ (by omega),
      b64Val_b64Char _ (by omega)]
    simp only [List.cons.injEq, and_true]
    constructor
    · omega
    · omega
  | case4 a b c rest ih =>
    have ha : a < 256 := h a (by simp)
    have hb : b < 256 := h b (by simp)
    have hc : c < 256 := h c (by simp)
    have hrest : ∀ x ∈ rest, x < 256 := fun x hx => h x (by simp [hx])
    show base64Decode (b64Char (a / 4) :: b64Char (a % 4 * 16 + b / 16) ::
      b64Char (b % 16 * 4 + c / 64) :: b64Char (c % 64) :: base64Encode rest) =
      a :: b :: c :: rest
    rw [base64Decode_quad _ _ _ _ (b64Char_ne_pad _ (by omega))
        (b64Char_ne_pad _ (by omega)),
      b64Val_b64Char _ (by omega), b64Val_b64Char _ (by omega),
      b64Val_b64Char _ (by omega), b64Val_b64Char _ (by omega), ih hrest]
    simp only [List.cons_append, List.nil_append, List.cons.injEq, and_true]
    refine ⟨by omega, by omega, by omega⟩

theorem packItem_read_fail (E : Env) (f : FileRec) (hb : E.readFile f.path = none) :
    packItem E f = baseItem f := by
  simp [packItem, hb]

theorem everythingItem_read_fail (E : Env) (f : FileRec) (hb : E.readFile f.path = none) :
    everythingItem E f = baseItem f := by
  simp [everythingItem, hb]

theorem packItem_spec (E : Env) (f : FileRec) (bs : List Nat)
    (hb : E.readFile f.path = some bs) :
    packItem E f = baseItem f ∨
    packItem E f =
      { baseItem f with
        inline_state := "full", encoding := some ("utf8"),
        content := some bs, inline_bytes := some bs.length,
        content_sha256 := some (E.hash bs) } ∨
    packItem E f =
      { baseItem f with
        inline_state := "preview", encoding := some ("utf8"),
        content := some (bs.take PREVIEW_TEXT_BYTES),
        inline_bytes := some (bs.take PREVIEW_TEXT_BYTES).length,
        content_sha256 := some (E.hash bs),
        json_hint := if extOf f.path = "json" then jsonShapeHint E.jparse bs else none } ∨
    packItem E f =
      { baseItem f with
        inline_state := "full", encoding := some ("base64"),
        content := some (base64Encode bs),
        inline_bytes := some (base64Encode bs).length,
        content_sha256 := some (E.hash bs) } := by
  simp only [packItem, hb]
  split
  · split
    · exact Or.inr (Or.inl rfl)
    · split
      · exact Or.inr (Or.inr (Or.inl rfl))
      · exact Or.inl rfl
  · split
    · exact Or.inr (Or.inr (Or.inr rfl))
    · exact Or.inl rfl

theorem everythingItem_spec (E : Env) (f : FileRec) (bs : List Nat)
    (hb : E.readFile f.path = some bs) :
    everythingItem E f = baseItem f ∨
    everythingItem E f =
      { baseItem f with
        inline_state := "full", encoding := some ("utf8"),
        content := some bs, inline_bytes := some bs.length,
        content_sha256 := some (E.hash bs) } ∨
    everythingItem E f =
      { baseItem f with
        inline_state := "preview", encoding := some ("utf8"),
        content := some (bs.take PREVIEW_TEXT_BYTES),
        inline_bytes := some (bs.take PREVIEW_TEXT_BYTES).length,
        content_sha256 := some (E.hash bs),
        json_hint :=
          if strEnds (lowerStr f.path) (".json") then jsonShapeHint E.jparse bs
          else none } ∨
    everythingItem E f =
      { baseItem f with
        inline_state := "full", encoding := some ("base64"),
        content := some (base64Encode bs),
        inline_bytes := some (base64Encode bs).length,
        content_sha256 := some (E.hash bs) } := by
  simp only [everythingItem, hb]
  split
  · split
    · exact Or.inr (Or.inl rfl)
    · split
      · exact Or.inr (Or.inr (Or.inl rfl))
      · exact Or.inl rfl
  · split
    · exact Or.inr (Or.inr (Or.inr rfl))
    · exact Or.inl rfl

/-- Claim C3: an item inlined as a preview carries the SHA-256 of the
complete file bytes `bs`, never of the truncated slice — in the targeted
packs (`writePack`) and in the sharded everything pack alike. -/
theorem preview_hash_covers_full_file (E : Env) (f : FileRec) (bs : List Nat)
    (hb : E.readFile f.path = some bs) :
    ((packItem E f).inline_state = "preview" →
      (packItem E f).content_sha256 = some (E.hash bs)) ∧
    ((everythingItem E f).inline_state = "preview" →
      (everythingItem E f).content_sha256 = some (E.hash bs)) := by
  constructor
  · rcases packItem_spec E f bs hb with h | h | h | h <;> rw [h] <;> intro hs
    · exact absurd hs (by simp [baseItem])
    · exact absurd hs (by simp [baseItem])
    · rfl
    · exact absurd hs (by simp [baseItem])
  · rcases everythingItem_spec E f bs hb with h | h | h | h <;> rw [h] <;> intro hs
    · exact absurd hs (by simp [baseItem])
    · exact absurd hs (by simp [baseItem])
    · rfl
    · exact absurd hs (by simp [baseItem])

/-- Claim C4: an item inlined in full carries the SHA-256 of the complete
file bytes; a full text inline embeds a content whose byte length is the
true file size, and a full binary inline embeds a base64 content that
decodes back to exactly the file's bytes — in both pack writers. -/
theorem full_inline_exact (E : Env) (f : FileRec) (bs : List Nat)
    (hb : E.readFile f.path = some bs) (hbytes : ∀ x ∈ bs, x < 256) :
    (((packItem E f).inline_state = "full" →
       (packItem E f).content_sha256 = some (E.hash bs)) ∧
     ((packItem E f).inline_state = "full" →
       (packItem E f).encoding = some ("utf8") →
       (packItem E f).content.map List.length = some bs.length) ∧
     ((packItem E f).inline_state = "full" →
       (packItem E f).encoding = some ("base64") →
       (packItem E f).content.map (fun c => (base64Decode c).length) =
         some bs.length)) ∧
    (((everythingItem E f).inline_state = "full" →
       (everythingItem E f).content_sha256 = some (E.hash bs)) ∧
     ((everythingItem E f).inline_state = "full" →
       (everythingItem E f).encoding = some ("utf8") →
       (everythingItem E f).content.map List.length = some bs.length) ∧
     ((everythingItem E f).inline_state = "full" →
       (everythingItem E f).encoding = some ("base64") →
       (everythingItem E f).content.map (fun c => (base64Decode c).length) =
         some bs.length)) := by
  constructor
  · rcases packItem_spec E f bs hb with h | h | h | h <;> rw [h] <;>
      refine ⟨fun hs => ?_, fun hs henc => ?_, fun hs henc => ?_⟩
    · exact absurd hs (by simp [baseItem])
    · exact absurd hs (by simp [baseItem])
    · exact absurd hs (by simp [baseItem])
    · rfl
    · rfl
    · exact absurd henc (by simp [baseItem])
    · exact absurd hs (by simp [baseItem])
    · exact absurd hs (by simp [baseItem])
    · exact absurd hs (by simp [baseItem])
    · rfl
    · exact absurd henc (by simp [baseItem])
    · simp [base64_roundtrip bs hbytes]
  · rcases everythingItem_spec E f bs hb with h | h | h | h <;> rw [h] <;>
      refine ⟨fun hs => ?_, fun hs henc => ?_, fun hs henc => ?_⟩
    · exact absurd hs (by simp [baseItem])
    · exact absurd hs (by simp [baseItem])
    · exact absurd hs (by simp [baseItem])
    · rfl
    · rfl
    · exact absurd henc (by simp [baseItem])
    · exact absurd hs (by simp [baseItem])
    · exact absurd hs (by simp [baseItem])
    · exact absurd hs (by simp [baseItem])
    · rfl
    · exact absurd henc (by simp [baseItem])
    · simp [base64_roundtrip bs hbytes]

/-- Claim C5: the embedded content of a preview item never exceeds the
configured preview budget (`PREVIEW_TEXT_BYTES`, 64 KiB) — in both pack
writers. -/
theorem preview_within_budget (E : Env) (f : FileRec) :
    ((packItem E f).inline_state = "preview" →
      ((packItem E f).content.getD []).length ≤ PREVIEW_TEXT_BYTES) ∧
    ((everythingItem E f).inline_state = "preview" →
      ((everythingItem E f).content.getD []).length ≤ PREVIEW_TEXT_BYTES) := by
  constructor
  · cases hb : E.readFile f.path with
    | none =>
      rw [packItem_read_fail E f hb]
      intro hs
      exact absurd hs (by simp [baseItem])
    | some bs =>
      rcases packItem_spec E f bs hb with h | h | h | h <;> rw [h] <;> intro hs
      · exact absurd hs (by simp [baseItem])
      · exact absurd hs (by simp [baseItem])
      · simp
      · exact absurd hs (by simp [baseItem])
  · cases hb : E.readFile f.path with
    | none =>
      rw [everythingItem_read_fail E f hb]
      intro hs
      exact absurd hs (by simp [baseItem])
    | some bs =>
      rcases everythingItem_spec E f bs hb with h | h | h | h <;> rw [h] <;> intro hs
      · exact absurd hs (by simp [baseItem])
      · exact absurd hs (by simp [baseItem])
      · simp
      · exact absurd hs (by simp [baseItem])

/-- Claim C6: `inline_state = "none"` holds exactly when the item carries no
`content`, no `encoding` and no `content_sha256`; conversely a `"full"` or
`"preview"` item carries all three — in both pack writers. -/
theorem none_state_iff_no_content_fields (E : Env) (f : FileRec) :
    (((packItem E f).inline_state = "none" ↔
       ((packItem E f).content = none ∧ (packItem E f).encoding = none ∧
        (packItem E f).content_sha256 = none)) ∧
     ((packItem E f).inline_state ≠ "none" →
       ((packItem E f).content.isSome ∧ (packItem E f).encoding.isSome ∧
        (packItem E f).content_sha256.isSome))) ∧
    (((everythingItem E f).inline_state = "none" ↔
       ((everythingItem E f).content = none ∧ (everythingItem E f).encoding = none ∧
        (everythingItem E f).content_sha256 = none)) ∧
     ((everythingItem E f).inline_state ≠ "none" →
       ((everythingItem E f).content.isSome ∧ (everythingItem E f).encoding.isSome ∧
        (everythingItem E f).content_sha256.isSome))) := by
  constructor
  · cases hb : E.readFile f.path with
    | none =>
      rw [packItem_read_fail E f hb]
      simp [baseItem]
    | some bs =>
      rcases packItem_spec E f bs hb with h | h | h | h <;> rw [h] <;> simp [baseItem]
  · cases hb : E.readFile f.path with
    | none =>
      rw [everythingItem_read_fail E f hb]
      simp [baseItem]
    | some bs =>
      rcases everythingItem_spec E f bs hb with h | h | h | h <;> rw [h] <;> simp [baseItem]

/-- Claim C7: for a JSON file embedded only as a preview, the emitted item's
shape hint is `jsonShapeHint` of the complete file content, in both pack
writers; the hint records the top-level type, for arrays the length and a
sample of at most 3 elements, for objects at most 12 key names; and a parse
failure just leaves the hint absent. -/
theorem json_preview_shape_hint (E : Env) (f : FileRec) (bs : List Nat)
    (hb : E.readFile f.path = some bs)
    (hext : extOf f.path = "json")
    (hend : strEnds (lowerStr f.path) (".json") = true)
    (hp1 : (packItem E f).inline_state = "preview")
    (hp2 : (everythingItem E f).inline_state = "preview") :
    (packItem E f).json_hint = jsonShapeHint E.jparse bs ∧
    (everythingItem E f).json_hint = jsonShapeHint E.jparse bs ∧
    (E.jparse bs = none → jsonShapeHint E.jparse bs = none) ∧
    (∀ d, E.jparse bs = some d →
      ∃ h, jsonShapeHint E.jparse bs = some h ∧ h.type = jsTypeTag d ∧
        (∀ l, d = Json.arr l →
          h.length = some l.length ∧ h.sample = some (l.take (min 3 l.length)) ∧
          (l.take (min 3 l.length)).length ≤ 3) ∧
        (∀ kvs, d = Json.obj kvs →
          h.keys = some ((kvs.map Prod.fst).take 12) ∧
          ((kvs.map Prod.fst).take 12).length ≤ 12)) := by
  refine ⟨?_, ?_, ?_, ?_⟩
  · rcases packItem_spec E f bs hb with h | h | h | h
    · rw [h] at hp1
      exact absurd hp1 (by simp [baseItem])
    · rw [h] at hp1
      exact absurd hp1 (by simp [baseItem])
    · rw [h]
      simp [hext]
    · rw [h] at hp1
      exact absurd hp1 (by simp [baseItem])
  · rcases everythingItem_spec E f bs hb with h | h | h | h
    · rw [h] at hp2
      exact absurd hp2 (by simp [baseItem])
    · rw [h] at hp2
      exact absurd hp2 (by simp [baseItem])
    · rw [h]
      simp [hend]
    · rw [h] at hp2
      exact absurd hp2 (by simp [baseItem])
  · intro hn
    simp [jsonShapeHint, hn]
  · intro d hd
    cases d with
    | null =>
      simp only [jsonShapeHint, hd]
      refine ⟨_, rfl, rfl, ?_, ?_⟩
      · intro l hl
        exact absurd hl (by simp)
      · intro kvs hk
        exact absurd hk (by simp)
    | bool b =>
      simp only [jsonShapeHint, hd]
      refine ⟨_, rfl, rfl, ?_, ?_⟩
      · intro l hl
        exact absurd hl (by simp)
      · intro kvs hk
        exact absurd hk (by simp)
    | num n =>
      simp only [jsonShapeHint, hd]
      refine ⟨_, rfl, rfl, ?_, ?_⟩
      · intro l hl
        exact absurd hl (by simp)
      · intro kvs hk
        exact absurd hk (by simp)
    | str s =>
      simp only [jsonShapeHint, hd]
      refine ⟨_, rfl, rfl, ?_, ?_⟩
      · intro l hl
        exact absurd hl (by simp)
      · intro kvs hk
        exact absurd hk (by simp)
    | arr l =>
      simp only [jsonShapeHint, hd]
      refine ⟨_, rfl, rfl, ?_, ?_⟩
      · intro l' hl
        have hll : l = l' := by
          injection hl
        subst hll
        refine ⟨rfl, rfl, ?_⟩
        rw [List.length_take]
        omega
      · intro kvs hk
        exact absurd hk (by simp)
    | obj kvs =>
      simp only [jsonShapeHint, hd]
      refine ⟨_, rfl, rfl, ?_, ?_⟩
      · intro l hl
        exact absurd hl (by simp)
      · intro kvs' hk
        have hkk : kvs = kvs' := by
          injection hk
        subst hkk
        refine ⟨rfl, ?_⟩
        rw [List.length_take]
        omega

theorem json_preview_shape_hint_witness :
    (packItem E1 fJson).json_hint =
      some { type := "array", length := some 4,
             sample := some [Json.null, Json.null, Json.null] } := by
  have h := json_preview_shape_hint E1 fJson [] (by rfl) (by rfl) (by rfl) (by rfl) (by rfl)
  rw [h.1]
  rfl

theorem walk_sha_empty_aux : ∀ n : Nat, ∀ es : List FSEntry, sizeOf es ≤ n →
    ∀ dir : String, ∀ r ∈ walkList dir es, r.git_blob_sha = "" := by
  intro n
  induction n with
  | zero =>
    intro es h
    cases es with
    | nil => intro dir r hr; simp [walkList] at hr
    | cons e es' =>
      exfalso
      simp at h
  | succ n ih =>
    intro es h dir r hr
    cases es with
    | nil => simp [walkList] at hr
    | cons e es' =>
      rw [walkList] at hr
      rcases List.mem_append.mp hr with h1 | h2
      · cases e with
        | file nm sz =>
          simp only [walkEntry] at h1
          split at h1
          · simp at h1
          · have hre := List.mem_singleton.mp h1
            subst hre
            rfl
        | dir nm ents =>
          simp only [walkEntry] at h1
          split at h1
          · simp at h1
          · refine ih ents ?_ _ r h1
            simp at h
            omega
      · refine ih es' ?_ dir r h2
        simp at h
        omega

theorem walk_sha_empty (dir : String) (es : List FSEntry) :
    ∀ r ∈ walkList dir es, r.git_blob_sha = "" :=
  walk_sha_empty_aux (sizeOf es) es (Nat.le_refl _) dir

/-- Claim C8 counterexample: the fallback walk does not exclude only the
source-control metadata directory.  On a working tree holding
`.github/w.yml` and `a.txt`, the walk returns only `a.txt`: the `.github`
directory (not source-control metadata) is dropped as well, because the
skip test is a bare `.git` prefix test on the joined path. -/
theorem walk_excludes_more_than_git_dir :
    (walkList (".") demoTree).map FileRec.path = [("a.txt")] ∧
    ((walkList (".") demoTree).map FileRec.path).contains (".github/w.yml") = false := by
  constructor
  · rfl
  · rfl

/-- Claim C8 (amended): when the source-control listing yields no files the
lister falls back to `walk(".")`; the walk skips every entry whose joined
path starts with `.git` — so not only the `.git` metadata directory but
also e.g. `.github/` and `.gitignore`; every record produced carries an
empty content-address; and a surviving file entry yields exactly one
record whose size is the filesystem size and whose path is the joined
filesystem path with one leading dot (plus following slashes) stripped. -/
theorem walk_fallback_amended (t : List FSEntry) (dir name : String) (sz : Nat)
    (ents : List FSEntry) :
    fallbackFiles [] t = walkList (".") t ∧
    (∀ r ∈ walkList (".") t, r.git_blob_sha = "") ∧
    (strStarts (joinPath dir name) (".git") = true →
      walkEntry dir (FSEntry.file name sz) = [] ∧
      walkEntry dir (FSEntry.dir name ents) = []) ∧
    (strStarts (joinPath dir name) (".git") = false →
      walkEntry dir (FSEntry.file name sz) =
        [{ path := stripLeadingDot (joinPath dir name), size := sz,
           git_blob_sha := "", media_type := mediaTypeFor (joinPath dir name) }]) := by
  refine ⟨rfl, walk_sha_empty (".") t, ?_, ?_⟩
  · intro hgit
    constructor
    · simp [walkEntry, hgit]
    · simp [walkEntry, hgit]
  · intro hgit
    simp [walkEntry, hgit]

theorem walk_fallback_amended_witness :
    walkEntry (".") (FSEntry.file ("a.txt") 5) = [recATxt] ∧
    recATxt.git_blob_sha = "" := by
  have h := walk_fallback_amended demoTree (".") ("a.txt") 5 []
  have h4 := h.2.2.2 (by rfl)
  have hmem : recATxt ∈ walkList (".") demoTree := by
    have hw : walkList (".") demoTree = [recATxt] := by rfl
    rw [hw]
    simp
  refine ⟨?_, h.2.1 _ hmem⟩
  rw [h4]
  rfl

/-- Claim C9: each section of the combined `ai-pack-all` document has a
count equal to the corresponding named pack's own recorded count — reading
the written pack back and counting its items yields exactly the number the
pack recorded at write time. -/
theorem combined_section_counts (E : Env) (files : List FileRec) :
    (combinedSection E files ("ai-pack-docs")).count =
      (writePackModel E files predDocs).count ∧
    (combinedSection E files ("ai-pack-data-config")).count =
      (writePackModel E files predDataConfig).count ∧
    (combinedSection E files ("ai-pack-core")).count =
      (writePackModel E files predCore).count ∧
    (combinedSection E files ("ai-pack-ci")).count =
      (writePackModel E files predCi).count := by
  refine ⟨rfl, rfl, rfl, rfl⟩

theorem shard_close_policy_witness : shardATxt.items.length ≤ SHARD_MAX_ITEMS := by
  have hs : everythingShards E0 [fTxt] = [shardATxt] := by rfl
  refine (shard_close_policy E0 [fTxt]).1 shardATxt ?_
  rw [hs]
  simp

theorem shards_never_empty_witness : 1 ≤ shardATxt.items.length := by
  have hs : everythingShards E0 [fTxt] = [shardATxt] := by rfl
  refine (shards_never_empty E0 [fTxt]).1 shardATxt ?_
  rw [hs]
  simp

theorem preview_hash_covers_full_file_witness :
    (packItem E0 fPrev).content_sha256 = some ("") :=
  (preview_hash_covers_full_file E0 fPrev [] rfl).1 (by rfl)

theorem full_inline_exact_witness :
    (packItem E0 fBin).content.map (fun c => (base64Decode c).length) = some 0 :=
  (full_inline_exact E0 fBin [] rfl (by simp)).1.2.2 (by rfl) (by rfl)

theorem preview_within_budget_witness :
    ((packItem E0 fPrev).content.getD []).length ≤ PREVIEW_TEXT_BYTES :=
  (preview_within_budget E0 fPrev).1 (by rfl)

theorem none_state_iff_no_content_fields_witness :
    (packItem E0 fBigBin).content = none ∧ (packItem E0 fBigBin).encoding = none ∧
      (packItem E0 fBigBin).content_sha256 = none :=
  (none_state_iff_no_content_fields E0 fBigBin).1.1.mp (by rfl)

end BuildAiIndex
